import Mathlib

/-!
# Voidspark: the exploration and combat engine of `src/main.go`

A shallow embedding of the world generator (`buildWorld`), the party factory
(`generateParty`), the four room resolvers (`resolveCombat`, `randomLoot`,
`triggerTrap`, `restParty`) and the exploration step (the body of
`exploreHandler` after the session lookup), followed by theorems about them.

Modelling conventions:

* Go slices are lists; a function that mutates `*World` in place returns the
  updated world next to its Go result.
* `Hero.HP`, `Hero.MaxHP` and `World.Seed` are integers; a Go `int` is the
  integer it denotes, between `-2^63` and `2^63 - 1`.  Where a 64-bit operation
  can leave that range it is reduced explicitly with `wrap64`: the seed
  `wld.Seed+int64(wld.Current)`, and in `restParty` the difference
  `MaxHP - HP` and the running total `healed += amount`.  The update
  `HP += amount` of `restParty` is written without reduction: for a hero with
  `0 ≤ HP ≤ MaxHP` the new value lies between `HP` and `MaxHP`.
  `World.Current` is a natural number: it starts at 0 in `buildWorld` and its
  only update is `wld.Current++`.
* Package `math/rand` is not part of the repository.  A generator is a stream
  of raw draws with a read position; `Intn n` reduces the next raw draw into
  `[0, n)`.  `rand.New(rand.NewSource(seed))` is a parameter
  `newSource : Int → Rand` of every function that seeds a generator, so that
  every statement holds for every seeding function and every stream.
* `resolveCombat` contains a `for enemyHP > 0` loop; it is run with a fuel
  argument that bounds the number of rounds per enemy and yields `none` when
  the fuel runs out.
-/

namespace Voidspark

/-! ## Data model (main.go 19-44) -/

structure Room where
  Index : Int
  Type_ : String
  Desc : String
  deriving DecidableEq

structure Hero where
  Name : String
  Role : String
  HP : Int
  MaxHP : Int
  Stats : List (String × Int)
  deriving DecidableEq

structure World where
  ID : String
  Dimension : String
  Theme : String
  Aesthetic : String
  Rooms : List Room
  Seed : Int
  Current : Nat
  GameState : String
  Party : List Hero
  Log : List String
  deriving DecidableEq

/-! ## The random generator -/

/-- A seeded generator: the stream of its raw draws and the number of draws
consumed so far. -/
structure Rand where
  draws : Nat → Nat
  pos : Nat

/-- The call `r.Intn(n)`: the value returned and the generator afterwards. -/
def Rand.Intn (r : Rand) (n : Nat) : Nat × Rand :=
  (r.draws r.pos % n, { r with pos := r.pos + 1 })

/-- The expression `xs[r.Intn(len(xs))]` on a non-empty slice. -/
def pick {α : Type} (xs : List α) (h : 0 < xs.length) (r : Rand) : α × Rand :=
  (xs.get ⟨(r.Intn xs.length).1, Nat.mod_lt _ h⟩, (r.Intn xs.length).2)

/-- Reduction of an integer into the range of `int64` (two's complement). -/
def wrap64 (x : Int) : Int :=
  (x + 2 ^ 63) % 2 ^ 64 - 2 ^ 63

/-- The helper `max` (main.go 519-524). -/
def max (a b : Int) : Int :=
  if a > b then a else b

/-! ## World generation (main.go 324-404) -/

def enemies : List String :=
  ["goblin", "skeleton", "slime", "bandit", "warg", "orc", "shadow knight", "rat swarm"]

def treasures : List String :=
  ["ancient chest", "enchanted urn", "jeweled altar", "crystal coffer", "forgotten relic"]

def traps : List String :=
  ["collapsing floor", "poison gas nozzle", "arrow trap", "flame burst tile", "swinging axe"]

def restSpots : List String :=
  ["quiet alcove", "hidden fountain", "warm torch-lit corner", "abandoned camp", "stone bench"]

def enemyActions : List String :=
  ["lurking in the shadows", "patrolling a mossy hallway", "guarding a cracked archway",
   "prowling near the entrance", "waiting beside a flickering torch",
   "snarling behind broken bars", "roaming the corridor aimlessly"]

def treasureFlavors : List String :=
  ["gleaming faintly in the dark", "sealed with ancient runes", "covered in glowing dust",
   "surrounded by gold coins", "hidden behind a loose wall stone"]

def trapFlavors : List String :=
  ["barely visible to the eye", "giving off a faint mechanical hum",
   "coated in strange residue", "cleverly disguised as safe ground",
   "making a faint clicking sound nearby"]

def restFlavors : List String :=
  ["filled with soft candlelight", "surrounded by silence", "echoing faint dripping sounds",
   "carved with ancient runes of peace", "still warm from a previous traveler"]

/-- One iteration of the room loop (main.go 367-390): the room with index `i`
and the generator after its three draws. -/
def genRoom (i : Int) (r : Rand) : Room × Rand :=
  match (r.Intn 4).1 with
  | 0 =>
    let treasure := pick treasures (by decide) (r.Intn 4).2
    let flavor := pick treasureFlavors (by decide) treasure.2
    ({ Index := i, Type_ := "loot", Desc := "A " ++ treasure.1 ++ ", " ++ flavor.1 ++ "." },
      flavor.2)
  | 1 =>
    let enemy := pick enemies (by decide) (r.Intn 4).2
    let action := pick enemyActions (by decide) enemy.2
    ({ Index := i, Type_ := "combat", Desc := "A " ++ enemy.1 ++ " " ++ action.1 ++ "." },
      action.2)
  | 2 =>
    let trap := pick traps (by decide) (r.Intn 4).2
    let flavor := pick trapFlavors (by decide) trap.2
    ({ Index := i, Type_ := "trap", Desc := "A " ++ trap.1 ++ ", " ++ flavor.1 ++ "." },
      flavor.2)
  | 3 =>
    let spot := pick restSpots (by decide) (r.Intn 4).2
    let flavor := pick restFlavors (by decide) spot.2
    ({ Index := i, Type_ := "rest", Desc := "A " ++ spot.1 ++ ", " ++ flavor.1 ++ "." },
      flavor.2)
  | _ => ({ Index := i, Type_ := "", Desc := "" }, (r.Intn 4).2)

/-- The loop `for i := 1; i <= roomCount; i++` (main.go 366-391), entered with
`n` iterations left, the loop variable at `i` and the rooms appended so far. -/
def genRooms : Nat → Int → Rand → List Room → List Room
  | 0, _, _, rooms => rooms
  | n + 1, i, r, rooms => genRooms n (i + 1) (genRoom i r).2 (rooms ++ [(genRoom i r).1])

def buildWorld (newSource : Int → Rand) (theme aesthetic dim : String) (seed : Int) : World :=
  let r := newSource seed
  let roomCount := (r.Intn 5).1 + 8
  let rooms := genRooms roomCount 1 (r.Intn 5).2 []
  { ID := toString seed
    Dimension := dim
    Theme := theme
    Aesthetic := aesthetic
    Rooms := rooms
    Seed := seed
    Current := 0
    GameState := "exploring"
    Party := []
    Log := ["Spawned world: " ++ theme ++ " (" ++ aesthetic ++ ") seed=" ++ toString seed] }

/-! ## Party factory (main.go 406-415) -/

/-- The function `generateParty`; `now` is the value of `time.Now().UnixNano()`. -/
def generateParty (now : Int) : List Hero :=
  let base := Int.tmod now 1000
  [ { Name := "Tank-" ++ toString (base + 1), Role := "tank", MaxHP := 120, HP := 120,
      Stats := [("str", 8), ("def", 8)] },
    { Name := "Attacker-" ++ toString (base + 2), Role := "attacker", MaxHP := 90, HP := 90,
      Stats := [("str", 10), ("def", 4)] },
    { Name := "Healer-" ++ toString (base + 3), Role := "healer", MaxHP := 80, HP := 80,
      Stats := [("int", 9), ("def", 3)] },
    { Name := "Support-" ++ toString (base + 4), Role := "support", MaxHP := 85, HP := 85,
      Stats := [("dex", 7), ("def", 4)] } ]

def rolesList (hs : List Hero) : String :=
  String.intercalate ", " (hs.map (fun h => h.Name ++ "(" ++ h.Role ++ ")"))

/-- The body of `partyHandler` after the session lookup (main.go 205-208); `now` is the
value of `time.Now().UnixNano()` read by `generateParty`. -/
def partyHandler (now : Int) (wld : World) : World :=
  if wld.Party.length = 0 then
    { wld with
      Party := generateParty now
      Log := wld.Log ++ ["Party assembled: " ++ rolesList (generateParty now)] }
  else wld

/-! ## Resolvers (main.go 425-517) -/

/-- The slice `alive` built at main.go 455-460 and 486-491: the indices of the
heroes with `HP > 0`, in party order. -/
def alive : (party : List Hero) → List (Fin party.length)
  | [] => []
  | h :: hs =>
    if h.HP > 0 then (⟨0, Nat.succ_pos _⟩ : Fin (hs.length + 1)) :: (alive hs).map Fin.succ
    else (alive hs).map Fin.succ

/-- The update `w.Party[target].HP -= amount` followed by the clamp at 0
(main.go 467-470 and 496-499). -/
def damageHero (party : List Hero) (target : Fin party.length) (amount : Int) : List Hero :=
  party.set target.val
    { party.get target with
      HP := if (party.get target).HP - amount < 0 then 0 else (party.get target).HP - amount }

/-- The loop `for i := range w.Party` of one combat round (main.go 437-451),
over the heroes still to act: enemy HP, generator and log afterwards. -/
def heroesAttack : List Hero → Int → Rand → List String → Int × Rand × List String
  | [], enemyHP, r, logs => (enemyHP, r, logs)
  | h :: hs, enemyHP, r, logs =>
    if h.HP ≤ 0 then heroesAttack hs enemyHP r logs
    else
      let damage : Int := 5 + ((r.Intn 8).1 : Int)
      let damage := if h.Role = "attacker" then damage + 4 else damage
      let enemyHP := enemyHP - damage
      let logs := logs ++ [h.Name ++ " hits enemy for " ++ toString damage ++ " (enemy HP "
        ++ toString (max enemyHP 0) ++ ")"]
      if enemyHP ≤ 0 then (enemyHP, (r.Intn 8).2, logs ++ ["Enemy defeated"])
      else heroesAttack hs enemyHP (r.Intn 8).2 logs

/-- The loop `for enemyHP > 0` (main.go 436-472) with at most `fuel` rounds.
The Boolean of the result tells whether the function returned from inside the
loop (`All heroes down`); `none` means that the fuel ran out. -/
def fightEnemy : Nat → List Hero → Int → Rand → List String →
    Option (Bool × List Hero × Rand × List String)
  | 0, party, enemyHP, r, logs =>
    if enemyHP > 0 then none else some (false, party, r, logs)
  | fuel + 1, party, enemyHP, r, logs =>
    if enemyHP > 0 then
      let res := heroesAttack party enemyHP r logs
      if res.1 ≤ 0 then some (false, party, res.2.1, res.2.2)
      else
        if h : (alive party).length = 0 then
          some (true, party, res.2.1, res.2.2 ++ ["All heroes down"])
        else
          let target := pick (alive party) (Nat.pos_of_ne_zero h) res.2.1
          let hit : Int := 6 + ((target.2.Intn 8).1 : Int)
          let party1 := damageHero party target.1 hit
          fightEnemy fuel party1 res.1 (target.2.Intn 8).2
            (res.2.2 ++ ["Enemy hits " ++ (party.get target.1).Name ++ " for " ++ toString hit
              ++ " (HP " ++ toString ((party1.getD target.1.val (party.get target.1)).HP) ++ ")"])
    else some (false, party, r, logs)

/-- The loop `for e := 0; e < enemies; e++` (main.go 433-473) with `n`
iterations left and the loop variable at `e`. -/
def fightEnemies : Nat → Nat → Nat → List Hero → Rand → List String →
    Option (List Hero × List String)
  | _, 0, _, party, _, logs => some (party, logs)
  | fuel, n + 1, e, party, r, logs =>
    let enemyHP : Int := 30 + ((r.Intn 30).1 : Int)
    match fightEnemy fuel party enemyHP (r.Intn 30).2
        (logs ++ ["Enemy " ++ toString (e + 1) ++ " appears with " ++ toString enemyHP ++ " HP"]) with
    | none => none
    | some (true, party1, _, logs1) => some (party1, logs1)
    | some (false, party1, r1, logs1) => fightEnemies fuel n (e + 1) party1 r1 logs1

def resolveCombat (newSource : Int → Rand) (fuel : Nat) (w : World) (seed : Int) :
    Option (World × List String) :=
  if w.Party.length = 0 then some (w, ["No party present — combat skipped"])
  else
    let r := newSource seed
    let enemies := 1 + (r.Intn 2).1
    match fightEnemies fuel enemies 0 w.Party (r.Intn 2).2 [] with
    | none => none
    | some (party, logs) => some ({ w with Party := party }, logs)

def randomLoot (newSource : Int → Rand) (seed : Int) : String :=
  let r := newSource seed
  (pick ["gold coins", "sapphire amulet", "rusty sword", "potion of healing", "weird trinket"]
    (by decide) r).1

def triggerTrap (newSource : Int → Rand) (w : World) (seed : Int) : World × String :=
  let r := newSource seed
  let damage : Int := 5 + ((r.Intn 16).1 : Int)
  if h : (alive w.Party).length = 0 then
    (w, "Trap triggers, but no one is alive to be affected.")
  else
    let target := (pick (alive w.Party) (Nat.pos_of_ne_zero h) (r.Intn 16).2).1
    let party := damageHero w.Party target damage
    ({ w with Party := party },
      "Trap triggers: " ++ (w.Party.get target).Name ++ " takes " ++ toString damage
        ++ " damage (HP " ++ toString ((party.getD target.val (w.Party.get target)).HP) ++ ")")

/-- The loop of `restParty` (main.go 505-515) over the heroes still to visit:
the heroes afterwards and the running total `healed`. -/
def restLoop : List Hero → Int → List Hero × Int
  | [], healed => ([], healed)
  | h :: hs, healed =>
    if h.HP ≤ 0 then (h :: (restLoop hs healed).1, (restLoop hs healed).2)
    else
      let amount := Int.tdiv (wrap64 (h.MaxHP - h.HP)) 2
      if amount ≤ 0 then (h :: (restLoop hs healed).1, (restLoop hs healed).2)
      else
        ({ h with HP := h.HP + amount } :: (restLoop hs (wrap64 (healed + amount))).1,
          (restLoop hs (wrap64 (healed + amount))).2)

def restParty (w : World) : World × Int :=
  ({ w with Party := (restLoop w.Party 0).1 }, (restLoop w.Party 0).2)

/-! ## Exploration step (main.go 229-265) -/

/-- The `switch room.Type` of `exploreHandler` (main.go 241-254). -/
def resolveRoom (newSource : Int → Rand) (fuel : Nat) (wld : World) (room : Room) :
    Option World :=
  if room.Type_ = "combat" then
    match resolveCombat newSource fuel wld (wrap64 (wld.Seed + (wld.Current : Int))) with
    | none => none
    | some (w, clog) => some { w with Log := w.Log ++ clog }
  else if room.Type_ = "loot" then
    some { wld with
      Log := wld.Log ++
        ["Found treasure: " ++ randomLoot newSource (wrap64 (wld.Seed + (wld.Current : Int)))] }
  else if room.Type_ = "trap" then
    let res := triggerTrap newSource wld (wrap64 (wld.Seed + (wld.Current : Int)))
    some { res.1 with Log := res.1.Log ++ [res.2] }
  else if room.Type_ = "rest" then
    let res := restParty wld
    some { res.1 with Log := res.1.Log ++ ["Rested: healed " ++ toString res.2 ++ " HP total"] }
  else some wld

/-- The counter `alive` of main.go 256-261. -/
def countAlive : List Hero → Int
  | [] => 0
  | h :: hs => if h.HP > 0 then countAlive hs + 1 else countAlive hs

/-- The tail of `exploreHandler` (main.go 255-265): advance `Current` and test
for a party wipe. -/
def finishRoom (wld : World) : World :=
  let wld := { wld with Current := wld.Current + 1 }
  if countAlive wld.Party = 0 then
    { wld with
      Log := wld.Log ++ ["All party members have fallen. Game over."]
      GameState := "game_over" }
  else wld

/-- The body of `exploreHandler` after the session lookup (main.go 229-265):
one `advance` call on the world of the session. -/
def exploreHandler (newSource : Int → Rand) (fuel : Nat) (wld : World) : Option World :=
  if wld.GameState = "game_over" ∨ wld.GameState = "finished" then some wld
  else if h : wld.Current ≥ wld.Rooms.length then
    some { wld with
      Log := wld.Log ++ ["You have reached the dungeon's end. Victory! 🎉"]
      GameState := "finished" }
  else
    let room := wld.Rooms.get ⟨wld.Current, Nat.lt_of_not_le h⟩
    let wld1 := { wld with
      Log := wld.Log ++ ["Entering room " ++ toString room.Index ++ ": " ++ room.Desc
        ++ " (" ++ room.Type_ ++ ")"] }
    match resolveRoom newSource fuel wld1 room with
    | none => none
    | some wld2 => some (finishRoom wld2)

/-- A sequence of `n` successive `advance` calls on one session. -/
def exploreN (newSource : Int → Rand) (fuel : Nat) : Nat → World → Option World
  | 0, wld => some wld
  | n + 1, wld =>
    match exploreHandler newSource fuel wld with
    | none => none
    | some wld1 => exploreN newSource fuel n wld1

/-! ## Invariants of the data model (spec section 3) -/

/-- Every hero satisfies `0 ≤ hp ≤ max_hp`. -/
def PartyOK (party : List Hero) : Prop :=
  ∀ h ∈ party, 0 ≤ h.HP ∧ h.HP ≤ h.MaxHP

instance (party : List Hero) : Decidable (PartyOK party) := by
  unfold PartyOK; infer_instance

/-! ## Basic facts -/

theorem Intn_lt (r : Rand) (n : Nat) (h : 0 < n) : (r.Intn n).1 < n :=
  Nat.mod_lt _ h

theorem genRooms_length (n : Nat) : ∀ (i : Int) (r : Rand) (rooms : List Room),
    (genRooms n i r rooms).length = rooms.length + n := by
  induction n with
  | zero => intro i r rooms; simp [genRooms]
  | succ n ih =>
    intro i r rooms
    rw [genRooms, ih]
    simp
    omega

/-- C7: for every theme, aesthetic, dimension, seed and seeding function, the world
returned by `buildWorld` has 8 plus the first draw `Intn(5)` rooms, hence between 8
and 12 rooms inclusive. -/
theorem buildWorld_room_count (newSource : Int → Rand) (theme aesthetic dim : String)
    (seed : Int) :
    (buildWorld newSource theme aesthetic dim seed).Rooms.length
        = 8 + ((newSource seed).Intn 5).1
      ∧ 8 ≤ (buildWorld newSource theme aesthetic dim seed).Rooms.length
      ∧ (buildWorld newSource theme aesthetic dim seed).Rooms.length ≤ 12 := by
  have hlt := Intn_lt (newSource seed) 5 (by decide)
  have hlen : (buildWorld newSource theme aesthetic dim seed).Rooms.length
      = 8 + ((newSource seed).Intn 5).1 := by
    simp [buildWorld, genRooms_length]
    omega
  refine ⟨hlen, ?_, ?_⟩ <;> omega

theorem pick_mem {α : Type} (xs : List α) (h : 0 < xs.length) (r : Rand) :
    (pick xs h r).1 ∈ xs := by
  unfold pick
  exact List.get_mem _ _ _

theorem mem_alive : ∀ (party : List Hero) (t : Fin party.length),
    t ∈ alive party ↔ 0 < (party.get t).HP := by
  intro party
  induction party with
  | nil => intro t; exact t.elim0
  | cons h hs ih =>
    intro t
    unfold alive
    by_cases hh : h.HP > 0
    · simp only [hh, if_true, List.mem_cons, List.mem_map]
      constructor
      · rintro (rfl | ⟨a, ha, rfl⟩)
        · simpa using hh
        · simpa using (ih a).1 ha
      · intro ht
        rcases t with ⟨_ | k, hk⟩
        · left; rfl
        · right
          refine ⟨⟨k, by simpa using hk⟩, (ih _).2 (by simpa using ht), rfl⟩
    · simp only [hh, if_false, List.mem_map]
      constructor
      · rintro ⟨a, ha, rfl⟩
        simpa using (ih a).1 ha
      · intro ht
        rcases t with ⟨_ | k, hk⟩
        · exact absurd (by simpa using ht) hh
        · refine ⟨⟨k, by simpa using hk⟩, (ih _).2 (by simpa using ht), rfl⟩

theorem alive_length_eq_zero (party : List Hero) :
    (alive party).length = 0 ↔ ∀ h ∈ party, h.HP ≤ 0 := by
  rw [List.length_eq_zero]
  constructor
  · intro he h hmem
    obtain ⟨i, rfl⟩ := List.mem_iff_get.1 hmem
    by_contra hc
    have : i ∈ alive party := (mem_alive party i).2 (by omega)
    rw [he] at this
    exact absurd this (List.not_mem_nil _)
  · intro hall
    apply List.eq_nil_iff_forall_not_mem.2
    intro t ht
    have := (mem_alive party t).1 ht
    have := hall _ (List.get_mem party t.1 t.2)
    simp at *
    omega

/-! ## The rest resolver -/

theorem wrap64_range (x : Int) : -2 ^ 63 ≤ wrap64 x ∧ wrap64 x < 2 ^ 63 := by
  unfold wrap64
  omega

theorem wrap64_eq (x : Int) (h1 : -2 ^ 63 ≤ x) (h2 : x < 2 ^ 63) : wrap64 x = x := by
  unfold wrap64
  omega

theorem wrap64_le (x : Int) (h : 0 ≤ x) : wrap64 x ≤ x := by
  unfold wrap64
  omega

theorem wrap64_add (a b : Int) : wrap64 (wrap64 a + b) = wrap64 (a + b) := by
  unfold wrap64
  omega

/-- The rest loop keeps the hp bound, whatever the running total. -/
theorem restLoop_ok : ∀ (party : List Hero) (healed : Int), PartyOK party →
    PartyOK (restLoop party healed).1 := by
  intro party
  induction party with
  | nil => intro healed _ h hm; simp [restLoop] at hm
  | cons h hs ih =>
    intro healed hok
    have hh : 0 ≤ h.HP ∧ h.HP ≤ h.MaxHP := hok h (List.mem_cons_self _ _)
    have hok1 : PartyOK hs := fun x hx => hok x (List.mem_cons_of_mem _ hx)
    have hw := wrap64_le (h.MaxHP - h.HP) (by omega)
    unfold restLoop
    by_cases h0 : h.HP ≤ 0
    · simp only [h0, if_true]
      intro x hx
      rcases List.mem_cons.1 hx with rfl | hx
      · exact hh
      · exact ih healed hok1 x hx
    · simp only [h0, if_false]
      by_cases ha : Int.tdiv (wrap64 (h.MaxHP - h.HP)) 2 ≤ 0
      · simp only [ha, if_true]
        intro x hx
        rcases List.mem_cons.1 hx with rfl | hx
        · exact hh
        · exact ih healed hok1 x hx
      · simp only [ha, if_false]
        intro x hx
        rcases List.mem_cons.1 hx with rfl | hx
        · have hpos : 0 ≤ wrap64 (h.MaxHP - h.HP) := by
            by_contra hneg
            have hq := Int.tdiv_nonneg (a := -wrap64 (h.MaxHP - h.HP)) (b := 2) (by omega)
              (by decide)
            rw [Int.neg_tdiv] at hq
            exact ha (by omega)
          have hd : Int.tdiv (wrap64 (h.MaxHP - h.HP)) 2 = wrap64 (h.MaxHP - h.HP) / 2 :=
            Int.tdiv_eq_ediv hpos (by decide)
          simp only [hd]
          omega
        · exact ih _ hok1 x hx

/-- What the rest loop computes on heroes within the hp bound whose `MaxHP` is a 64-bit
value: every living hero gains half of the missing hp, rounded down, and the running
total is the 64-bit reduction of the entry total plus the amounts added. -/
theorem restLoop_spec : ∀ (party : List Hero) (healed : Int), PartyOK party →
    (∀ h ∈ party, h.MaxHP < 2 ^ 63) → -2 ^ 63 ≤ healed → healed < 2 ^ 63 →
    (restLoop party healed).1
        = party.map (fun h => if 0 < h.HP then { h with HP := h.HP + (h.MaxHP - h.HP) / 2 } else h)
      ∧ (restLoop party healed).2
        = wrap64 (healed
            + (party.map (fun h => if 0 < h.HP then (h.MaxHP - h.HP) / 2 else 0)).sum) := by
  intro party
  induction party with
  | nil =>
    intro healed _ _ h1 h2
    simp only [restLoop, List.map_nil, List.sum_nil, add_zero, true_and]
    exact (wrap64_eq healed h1 h2).symm
  | cons h hs ih =>
    intro healed hok h64 h1 h2
    have hh : 0 ≤ h.HP ∧ h.HP ≤ h.MaxHP := hok h (List.mem_cons_self _ _)
    have hm : h.MaxHP < 2 ^ 63 := h64 h (List.mem_cons_self _ _)
    have hok1 : PartyOK hs := fun x hx => hok x (List.mem_cons_of_mem _ hx)
    have h641 : ∀ x ∈ hs, x.MaxHP < 2 ^ 63 := fun x hx => h64 x (List.mem_cons_of_mem _ hx)
    have hw : wrap64 (h.MaxHP - h.HP) = h.MaxHP - h.HP := wrap64_eq _ (by omega) (by omega)
    have hdiv : Int.tdiv (wrap64 (h.MaxHP - h.HP)) 2 = (h.MaxHP - h.HP) / 2 := by
      rw [hw]
      exact Int.tdiv_eq_ediv (by omega) (by decide)
    unfold restLoop
    by_cases h0 : h.HP ≤ 0
    · have hn : ¬ 0 < h.HP := by omega
      simp only [h0, if_true, List.map_cons, hn, if_false, List.sum_cons, zero_add]
      exact ⟨by rw [(ih healed hok1 h641 h1 h2).1], (ih healed hok1 h641 h1 h2).2⟩
    · have hp : 0 < h.HP := by omega
      simp only [h0, if_false, List.map_cons, hp, if_true, List.sum_cons, hdiv]
      by_cases ha : (h.MaxHP - h.HP) / 2 ≤ 0
      · have hz : (h.MaxHP - h.HP) / 2 = 0 := by omega
        simp only [ha, if_true]
        refine ⟨?_, ?_⟩
        · rw [(ih healed hok1 h641 h1 h2).1, hz]; simp
        · rw [(ih healed hok1 h641 h1 h2).2, hz, zero_add]
      · simp only [ha, if_false]
        have hr := wrap64_range (healed + (h.MaxHP - h.HP) / 2)
        obtain ⟨e1, e2⟩ := ih (wrap64 (healed + (h.MaxHP - h.HP) / 2)) hok1 h641 hr.1 hr.2
        refine ⟨by rw [e1], ?_⟩
        rw [e2, wrap64_add, add_assoc]

/-- The amounts added to a party within the hp bound are not negative and sum to at most
120 per hero when no `MaxHP` exceeds 120. -/
theorem amounts_sum_bound : ∀ (party : List Hero), PartyOK party →
    (∀ h ∈ party, h.MaxHP ≤ 120) →
    0 ≤ (party.map (fun h => if 0 < h.HP then (h.MaxHP - h.HP) / 2 else 0)).sum
      ∧ (party.map (fun h => if 0 < h.HP then (h.MaxHP - h.HP) / 2 else 0)).sum
        ≤ 120 * (party.length : Int) := by
  intro party
  induction party with
  | nil => intro _ _; simp
  | cons h hs ih =>
    intro hok hm
    have hh : 0 ≤ h.HP ∧ h.HP ≤ h.MaxHP := hok h (List.mem_cons_self _ _)
    have hm0 : h.MaxHP ≤ 120 := hm h (List.mem_cons_self _ _)
    obtain ⟨i1, i2⟩ := ih (fun x hx => hok x (List.mem_cons_of_mem _ hx))
      (fun x hx => hm x (List.mem_cons_of_mem _ hx))
    simp only [List.map_cons, List.sum_cons, List.length_cons, Nat.cast_add, Nat.cast_one]
    split_ifs <;> omega

/-- C8: on a party in which every hero satisfies 0 ≤ hp ≤ max_hp (max_hp being a 64-bit
value), `restParty` sets each hero with hp > 0 to hp + floor((max_hp - hp) / 2), leaves
each hero with hp = 0 (and every other field of the world) unchanged, and returns the sum
of the amounts added as a Go `int`: the sum itself whenever it is below 2^63, which is
the case for every party of at most four heroes with max_hp at most 120 such as the one
made by `generateParty`, and its 64-bit reduction in general.  When every hero is at
max_hp it returns 0 and changes nothing. -/
theorem restParty_spec (w : World) (hok : PartyOK w.Party)
    (h64 : ∀ h ∈ w.Party, h.MaxHP < 2 ^ 63) :
    (restParty w).1 = { w with Party := (w.Party.map
        (fun h => if 0 < h.HP then { h with HP := h.HP + (h.MaxHP - h.HP) / 2 } else h)) }
      ∧ (∀ h ∈ w.Party, h.HP = 0 → h ∈ (restParty w).1.Party)
      ∧ (restParty w).2
        = wrap64 (w.Party.map (fun h => if 0 < h.HP then (h.MaxHP - h.HP) / 2 else 0)).sum
      ∧ ((w.Party.map (fun h => if 0 < h.HP then (h.MaxHP - h.HP) / 2 else 0)).sum < 2 ^ 63 →
          (restParty w).2
            = (w.Party.map (fun h => if 0 < h.HP then (h.MaxHP - h.HP) / 2 else 0)).sum)
      ∧ ((∀ h ∈ w.Party, h.MaxHP ≤ 120) → w.Party.length ≤ 4 →
          (restParty w).2
            = (w.Party.map (fun h => if 0 < h.HP then (h.MaxHP - h.HP) / 2 else 0)).sum)
      ∧ ((∀ h ∈ w.Party, h.HP = h.MaxHP) → (restParty w).2 = 0 ∧ (restParty w).1 = w) := by
  have hs := restLoop_spec w.Party 0 hok h64 (by decide) (by decide)
  have h1 : (restParty w).1 = { w with Party := (w.Party.map
      (fun h => if 0 < h.HP then { h with HP := h.HP + (h.MaxHP - h.HP) / 2 } else h)) } := by
    simp only [restParty, hs.1]
  have h2 : (restParty w).2
      = wrap64 (w.Party.map (fun h => if 0 < h.HP then (h.MaxHP - h.HP) / 2 else 0)).sum := by
    simp only [restParty, hs.2, zero_add]
  have hnn : 0 ≤ (w.Party.map (fun h => if 0 < h.HP then (h.MaxHP - h.HP) / 2 else 0)).sum := by
    apply List.sum_nonneg
    intro x hx
    obtain ⟨h, hmem, rfl⟩ := List.mem_map.1 hx
    have := hok h hmem
    split_ifs <;> omega
  refine ⟨h1, ?_, h2, ?_, ?_, ?_⟩
  · intro h hmem h0
    rw [h1]
    refine List.mem_map.2 ⟨h, hmem, ?_⟩
    simp [h0]
  · intro hlt
    rw [h2]
    exact wrap64_eq _ (by omega) hlt
  · intro hm hlen
    have hb := (amounts_sum_bound w.Party hok hm).2
    rw [h2]
    exact wrap64_eq _ (by omega) (by omega)
  · intro hfull
    have hm : w.Party.map
        (fun h => if 0 < h.HP then { h with HP := h.HP + (h.MaxHP - h.HP) / 2 } else h)
        = w.Party := by
      conv_rhs => rw [← List.map_id w.Party]
      apply List.map_congr_left
      intro h hmem
      have hf := hfull h hmem
      cases h
      simp only at hf
      subst hf
      simp
    have hsum : (w.Party.map (fun h => if 0 < h.HP then (h.MaxHP - h.HP) / 2 else 0)).sum
        = 0 := by
      apply List.sum_eq_zero
      intro x hx
      obtain ⟨h, hmem, rfl⟩ := List.mem_map.1 hx
      simp [hfull h hmem]
    refine ⟨by rw [h2, hsum]; decide, ?_⟩
    rw [h1, hm]

theorem restParty_spec_witness :
    PartyOK [⟨"Tank-1", "tank", 100, 120, []⟩, ⟨"Attacker-2", "attacker", 0, 90, []⟩,
        ⟨"Healer-3", "healer", 80, 80, []⟩, ⟨"Support-4", "support", 50, 85, []⟩]
      ∧ (restParty ⟨"7", "2D", "dungeon", "dark", [], 7, 0, "exploring",
          [⟨"Tank-1", "tank", 100, 120, []⟩, ⟨"Attacker-2", "attacker", 0, 90, []⟩,
            ⟨"Healer-3", "healer", 80, 80, []⟩, ⟨"Support-4", "support", 50, 85, []⟩],
          []⟩).1.Party.map (fun h => h.HP) = [110, 0, 80, 67]
      ∧ (restParty ⟨"7", "2D", "dungeon", "dark", [], 7, 0, "exploring",
          [⟨"Tank-1", "tank", 100, 120, []⟩, ⟨"Attacker-2", "attacker", 0, 90, []⟩,
            ⟨"Healer-3", "healer", 80, 80, []⟩, ⟨"Support-4", "support", 50, 85, []⟩],
          []⟩).2 = 27 :=
  ⟨by decide,
    (congrArg (fun v : World => v.Party.map (fun h => h.HP))
      (restParty_spec ⟨"7", "2D", "dungeon", "dark", [], 7, 0, "exploring",
        [⟨"Tank-1", "tank", 100, 120, []⟩, ⟨"Attacker-2", "attacker", 0, 90, []⟩,
          ⟨"Healer-3", "healer", 80, 80, []⟩, ⟨"Support-4", "support", 50, 85, []⟩],
        []⟩ (by decide) (by decide)).1).trans (by decide),
    ((restParty_spec ⟨"7", "2D", "dungeon", "dark", [], 7, 0, "exploring",
        [⟨"Tank-1", "tank", 100, 120, []⟩, ⟨"Attacker-2", "attacker", 0, 90, []⟩,
          ⟨"Healer-3", "healer", 80, 80, []⟩, ⟨"Support-4", "support", 50, 85, []⟩],
        []⟩ (by decide) (by decide)).2.2.2.1 (by decide)).trans (by decide)⟩

/-- The running total wraps at 64 bits: three heroes at 1 of 2^63 - 1 hp are healed by
4611686018427387903 each, and the value returned is the sum of the three amounts
reduced to a 64-bit `int`, not the sum itself. -/
theorem restParty_wraps :
    PartyOK [⟨"a", "tank", 1, 9223372036854775807, []⟩,
        ⟨"b", "tank", 1, 9223372036854775807, []⟩, ⟨"c", "tank", 1, 9223372036854775807, []⟩]
      ∧ (restParty ⟨"7", "2D", "dungeon", "dark", [], 7, 0, "exploring",
          [⟨"a", "tank", 1, 9223372036854775807, []⟩,
            ⟨"b", "tank", 1, 9223372036854775807, []⟩,
            ⟨"c", "tank", 1, 9223372036854775807, []⟩], []⟩).2 = -4611686018427387907 := by
  constructor <;> decide

/-! ## The trap resolver -/

/-- C9: `triggerTrap` changes the hp of at most one hero.  If some hero has hp > 0, one
hero that was alive before the call has its hp replaced by max(hp - d, 0) for a damage d
with 5 ≤ d ≤ 20 and every other hero (and every other field of the world) is unchanged;
if no hero has hp > 0, the world is unchanged and the "no one is alive" line is
returned. -/
theorem triggerTrap_frame (newSource : Int → Rand) (w : World) (seed : Int) :
    ((∃ h ∈ w.Party, 0 < h.HP) →
        ∃ (t : Fin w.Party.length) (d : Int), 5 ≤ d ∧ d ≤ 20 ∧ 0 < (w.Party.get t).HP
          ∧ (triggerTrap newSource w seed).1 = { w with Party := (w.Party.set t.val
              { w.Party.get t with HP := Max.max ((w.Party.get t).HP - d) 0 }) }
          ∧ (triggerTrap newSource w seed).1.Party.length = w.Party.length
          ∧ ∀ i : Nat, i ≠ t.val → (triggerTrap newSource w seed).1.Party[i]? = w.Party[i]?)
      ∧ ((¬ ∃ h ∈ w.Party, 0 < h.HP) →
        triggerTrap newSource w seed
          = (w, "Trap triggers, but no one is alive to be affected.")) := by
  constructor
  · rintro ⟨h, hmem, hpos⟩
    have hne : ¬ (alive w.Party).length = 0 := by
      intro h0
      have := (alive_length_eq_zero w.Party).1 h0 h hmem
      omega
    have hlt := Intn_lt (newSource seed) 16 (by decide)
    refine ⟨(pick (alive w.Party) (Nat.pos_of_ne_zero hne) ((newSource seed).Intn 16).2).1,
      5 + (((newSource seed).Intn 16).1 : Int), by omega, by omega, ?_, ?_, ?_, ?_⟩
    · exact (mem_alive _ _).1 (pick_mem _ _ _)
    · simp only [triggerTrap, hne, dite_false, damageHero]
      congr 2
      have hp := (mem_alive _ _).1
        (pick_mem (alive w.Party) (Nat.pos_of_ne_zero hne) ((newSource seed).Intn 16).2)
      split_ifs with hc
      · rw [max_eq_right (by omega)]
      · rw [max_eq_left (by omega)]
    · simp only [triggerTrap, hne, dite_false, damageHero, List.length_set]
    · intro i hi
      simp only [triggerTrap, hne, dite_false, damageHero]
      rw [List.getElem?_set_ne (Ne.symm hi)]
  · intro hnone
    have h0 : (alive w.Party).length = 0 := by
      apply (alive_length_eq_zero w.Party).2
      intro h hmem
      by_contra hc
      exact hnone ⟨h, hmem, by omega⟩
    simp only [triggerTrap, h0, dite_true]

theorem triggerTrap_frame_witness :
    (∃ h ∈ generateParty 0, 0 < h.HP)
      ∧ ∃ (t : Fin (generateParty 0).length) (d : Int), 5 ≤ d ∧ d ≤ 20
          ∧ 0 < ((generateParty 0).get t).HP
          ∧ ∀ i : Nat, i ≠ t.val →
            (triggerTrap (fun _ => ⟨fun _ => 0, 0⟩)
              ⟨"7", "2D", "dungeon", "dark", [], 7, 0, "exploring", generateParty 0, []⟩ 7).1.Party[i]?
              = (generateParty 0)[i]? :=
  ⟨by decide,
    let ⟨t, d, h5, h20, hpos, _, _, hrest⟩ :=
      (triggerTrap_frame (fun _ => ⟨fun _ => 0, 0⟩)
        ⟨"7", "2D", "dungeon", "dark", [], 7, 0, "exploring", generateParty 0, []⟩ 7).1
        (by decide)
    ⟨t, d, h5, h20, hpos, hrest⟩⟩

/-! ## Terminal states and the victory transition -/

/-- The first guard of the handler (main.go 229-232). -/
theorem exploreHandler_guard (newSource : Int → Rand) (fuel : Nat) (wld : World)
    (h : wld.GameState = "game_over" ∨ wld.GameState = "finished") :
    exploreHandler newSource fuel wld = some wld := by
  simp only [exploreHandler, h, if_true]

/-- The second guard of the handler (main.go 233-238). -/
theorem exploreHandler_end (newSource : Int → Rand) (fuel : Nat) (wld : World)
    (h1 : wld.GameState ≠ "game_over") (h2 : wld.GameState ≠ "finished")
    (hge : wld.Current ≥ wld.Rooms.length) :
    exploreHandler newSource fuel wld = some { wld with
      Log := wld.Log ++ ["You have reached the dungeon's end. Victory! 🎉"]
      GameState := "finished" } := by
  have hns : ¬ (wld.GameState = "game_over" ∨ wld.GameState = "finished") := by
    rintro (h | h)
    · exact h1 h
    · exact h2 h
  simp only [exploreHandler, hns, if_false, hge, dite_true]

/-- C2: on a world whose game_state is "finished" or "game_over" the advance step returns
the world unchanged (rooms, current, game_state, party and log included), for every
seeding function and every fuel. -/
theorem exploreHandler_terminal (newSource : Int → Rand) (fuel : Nat) (wld : World)
    (h : wld.GameState = "finished" ∨ wld.GameState = "game_over") :
    exploreHandler newSource fuel wld = some wld := by
  exact exploreHandler_guard newSource fuel wld h.symm

theorem exploreHandler_terminal_witness :
    exploreHandler (fun _ => ⟨fun _ => 0, 0⟩) 0
        ⟨"7", "2D", "dungeon", "dark", [⟨1, "combat", "A goblin."⟩], 7, 0, "game_over",
          generateParty 0, ["Spawned"]⟩
      = some ⟨"7", "2D", "dungeon", "dark", [⟨1, "combat", "A goblin."⟩], 7, 0, "game_over",
          generateParty 0, ["Spawned"]⟩ :=
  exploreHandler_terminal _ _ _ (Or.inr rfl)

/-- C3: on a world with game_state "exploring" whose current equals the number of rooms,
advance returns the same world with game_state "finished" and the victory line appended
to the log: current, rooms and the party are unchanged and no resolver is run. -/
theorem exploreHandler_victory (newSource : Int → Rand) (fuel : Nat) (wld : World)
    (hs : wld.GameState = "exploring") (hc : wld.Current = wld.Rooms.length) :
    ∃ wld1, exploreHandler newSource fuel wld = some wld1
      ∧ wld1 = { wld with
          Log := wld.Log ++ ["You have reached the dungeon's end. Victory! 🎉"]
          GameState := "finished" }
      ∧ wld1.GameState = "finished"
      ∧ wld1.Current = wld.Current ∧ wld1.Rooms = wld.Rooms ∧ wld1.Party = wld.Party
      ∧ wld1.Log = wld.Log ++ ["You have reached the dungeon's end. Victory! 🎉"]
      ∧ wld1.Log.length = wld.Log.length + 1 := by
  refine ⟨_, exploreHandler_end newSource fuel wld (by rw [hs]; decide) (by rw [hs]; decide)
    (by omega), rfl, rfl, rfl, rfl, rfl, rfl, ?_⟩
  simp

theorem exploreHandler_victory_witness :
    ∃ wld1, exploreHandler (fun _ => ⟨fun _ => 0, 0⟩) 0
        ⟨"7", "2D", "dungeon", "dark", [⟨1, "combat", "A goblin."⟩], 7, 1, "exploring",
          generateParty 0, ["Spawned"]⟩ = some wld1
      ∧ wld1.GameState = "finished" ∧ wld1.Current = 1 :=
  let ⟨wld1, h1, _, h2, h3, _⟩ :=
    exploreHandler_victory (fun _ => ⟨fun _ => 0, 0⟩) 0
      ⟨"7", "2D", "dungeon", "dark", [⟨1, "combat", "A goblin."⟩], 7, 1, "exploring",
        generateParty 0, ["Spawned"]⟩ rfl rfl
  ⟨wld1, h1, h2, h3⟩

/-! ## Log lines of the combat resolver -/

theorem append_paren_ne (s : String) : s ++ ")" ≠ "Enemy defeated" := by
  intro h
  have hd := congrArg (fun x => x.data.getLast?) h
  simp [String.data_append] at hd

theorem append_HP_ne (s : String) : s ++ " HP" ≠ "Enemy defeated" := by
  intro h
  have hd := congrArg (fun x => x.data.getLast?) h
  simp [String.data_append] at hd

theorem damageHero_length (party : List Hero) (t : Fin party.length) (a : Int) :
    (damageHero party t a).length = party.length := by
  simp [damageHero]

theorem damageHero_ok (party : List Hero) (t : Fin party.length) (a : Int) (ha : 0 ≤ a)
    (hok : PartyOK party) : PartyOK (damageHero party t a) := by
  intro h hmem
  unfold damageHero at hmem
  rcases List.mem_or_eq_of_mem_set hmem with hm | rfl
  · exact hok h hm
  · have := hok _ (List.get_mem party t.1 t.2)
    simp only [Fin.eta] at this ⊢
    split_ifs <;> omega

/-! ## The combat resolver -/

/-- What one pass of the heroes does to the enemy and to the log. -/
theorem heroesAttack_spec : ∀ (hs : List Hero) (enemyHP : Int) (r : Rand) (logs : List String),
    0 < enemyHP →
    ∃ extra, (heroesAttack hs enemyHP r logs).2.2 = logs ++ extra
      ∧ (heroesAttack hs enemyHP r logs).1 ≤ enemyHP
      ∧ ((∃ h ∈ hs, 0 < h.HP) → (heroesAttack hs enemyHP r logs).1 ≤ enemyHP - 5)
      ∧ ((heroesAttack hs enemyHP r logs).1 ≤ 0 →
          (∃ h ∈ hs, 0 < h.HP) ∧ extra.count "Enemy defeated" = 1
            ∧ extra.getLast? = some "Enemy defeated")
      ∧ (0 < (heroesAttack hs enemyHP r logs).1 → extra.count "Enemy defeated" = 0) := by
  intro hs
  induction hs with
  | nil =>
    intro enemyHP r logs hpos
    refine ⟨[], by simp [heroesAttack], by simp [heroesAttack], by simp, ?_, by simp⟩
    intro h
    simp only [heroesAttack] at h
    omega
  | cons h hs ih =>
    intro enemyHP r logs hpos
    unfold heroesAttack
    by_cases h0 : h.HP ≤ 0
    · simp only [h0, if_true]
      obtain ⟨extra, he, hle, hal, hdead, hlive⟩ := ih enemyHP r logs hpos
      refine ⟨extra, he, hle, ?_, ?_, hlive⟩
      · rintro ⟨x, hx, hxp⟩
        rcases List.mem_cons.1 hx with rfl | hx
        · omega
        · exact hal ⟨x, hx, hxp⟩
      · intro hd
        obtain ⟨⟨x, hx, hxp⟩, hc, hl⟩ := hdead hd
        exact ⟨⟨x, List.mem_cons_of_mem _ hx, hxp⟩, hc, hl⟩
    · have hp : 0 < h.HP := by omega
      simp only [h0, if_false]
      generalize hdmg : (if h.Role = "attacker" then (5 : Int) + ((r.Intn 8).1 : Int) + 4
        else 5 + ((r.Intn 8).1 : Int)) = damage
      have hd5 : 5 ≤ damage := by
        rw [← hdmg]; split_ifs <;> omega
      generalize hline : h.Name ++ " hits enemy for " ++ toString damage ++ " (enemy HP "
        ++ toString (max (enemyHP - damage) 0) ++ ")" = line
      have hne : line ≠ "Enemy defeated" := by
        rw [← hline]; exact append_paren_ne _
      by_cases hk : enemyHP - damage ≤ 0
      · simp only [hk, if_true]
        refine ⟨[line, "Enemy defeated"], by simp, by omega, fun _ => by omega, ?_, ?_⟩
        · intro _
          refine ⟨⟨h, List.mem_cons_self _ _, hp⟩, ?_, by simp⟩
          simp [List.count_cons, hne]
        · intro hc; omega
      · simp only [hk, if_false]
        obtain ⟨extra, he, hle, hal, hdead, hlive⟩ :=
          ih (enemyHP - damage) (r.Intn 8).2 (logs ++ [line]) (by omega)
        refine ⟨line :: extra, by rw [he]; simp, by omega, fun _ => by omega, ?_, ?_⟩
        · intro hd
          obtain ⟨⟨x, hx, hxp⟩, hc, hl⟩ := hdead hd
          refine ⟨⟨x, List.mem_cons_of_mem _ hx, hxp⟩, ?_, ?_⟩
          · simp [List.count_cons, hne, hc]
          · cases extra with
            | nil => simp at hl
            | cons a as => simpa using hl
        · intro hl
          simp [List.count_cons, hne, hlive hl]

theorem lastLine_append {α : Type} (xs ys : List α) (a : α)
    (h : ys.getLast? = some a) : (xs ++ ys).getLast? = some a := by
  cases ys with
  | nil => simp at h
  | cons y ys =>
    rw [List.getLast?_append_of_ne_nil _ (by simp)]
    exact h

/-- The fight against one enemy ends when the fuel is at least the enemy's HP: either
the function returns from inside the loop with every hero down, or the enemy is defeated
by a hero that is still alive. -/
theorem fightEnemy_spec (fuel : Nat) : ∀ (party : List Hero) (enemyHP : Int) (r : Rand)
    (logs : List String), 0 < enemyHP → enemyHP ≤ (fuel : Int) →
    ∃ (b : Bool) (party1 : List Hero) (r1 : Rand) (extra : List String),
      fightEnemy fuel party enemyHP r logs = some (b, party1, r1, logs ++ extra)
      ∧ party1.length = party.length
      ∧ (PartyOK party → PartyOK party1)
      ∧ (b = true → (∀ h ∈ party1, h.HP ≤ 0) ∧ extra.getLast? = some "All heroes down")
      ∧ (b = false → (∃ h ∈ party1, 0 < h.HP) ∧ extra.count "Enemy defeated" = 1
          ∧ extra.getLast? = some "Enemy defeated") := by
  induction fuel with
  | zero => intro party enemyHP r logs hpos hle; simp at hle; omega
  | succ fuel ih =>
    intro party enemyHP r logs hpos hle
    obtain ⟨extra, he, hle1, hal, hdead, hlive⟩ := heroesAttack_spec party enemyHP r logs hpos
    rw [fightEnemy]
    simp only [gt_iff_lt, hpos, if_true]
    by_cases hk : (heroesAttack party enemyHP r logs).1 ≤ 0
    · simp only [hk, if_true]
      refine ⟨false, party, _, extra, by rw [he], rfl, id, by simp, fun _ => hdead hk⟩
    · simp only [hk, if_false]
      by_cases ha : (alive party).length = 0
      · simp only [ha, dite_true]
        refine ⟨true, party, _, extra ++ ["All heroes down"], by rw [he, List.append_assoc],
          rfl, id, fun _ => ⟨(alive_length_eq_zero party).1 ha, by simp⟩, by simp⟩
      · simp only [ha, dite_false]
        have hex : ∃ h ∈ party, 0 < h.HP := by
          by_contra hc
          apply ha
          apply (alive_length_eq_zero party).2
          intro h hmem
          by_contra hc2
          exact hc ⟨h, hmem, by omega⟩
        have hdrop := hal hex
        generalize htgt : pick (alive party) (Nat.pos_of_ne_zero ha)
          (heroesAttack party enemyHP r logs).2.1 = target
        generalize hline : "Enemy hits " ++ (party.get target.1).Name ++ " for "
          ++ toString ((6 : Int) + ((target.2.Intn 8).1 : Int)) ++ " (HP "
          ++ toString (((damageHero party target.1 (6 + ((target.2.Intn 8).1 : Int))).getD
              target.1.val (party.get target.1)).HP) ++ ")" = line
        have hne : line ≠ "Enemy defeated" := by
          rw [← hline]; exact append_paren_ne _
        obtain ⟨b, party1, r1, extra2, hf, hlen, hok, htrue, hfalse⟩ :=
          ih (damageHero party target.1 (6 + ((target.2.Intn 8).1 : Int)))
            (heroesAttack party enemyHP r logs).1 (target.2.Intn 8).2
            ((heroesAttack party enemyHP r logs).2.2 ++ [line]) (by omega)
            (by push_cast at hle ⊢; omega)
        refine ⟨b, party1, r1, extra ++ [line] ++ extra2, ?_, ?_, ?_, ?_, ?_⟩
        · rw [hf, he]; simp
        · rw [hlen, damageHero_length]
        · intro hp
          exact hok (damageHero_ok _ _ _ (by omega) hp)
        · intro hb
          exact ⟨(htrue hb).1, lastLine_append _ _ _ (htrue hb).2⟩
        · intro hb
          obtain ⟨h1, h2, h3⟩ := hfalse hb
          refine ⟨h1, ?_, lastLine_append _ _ _ h3⟩
          have := hlive (by omega)
          simp [List.count_append, List.count_cons, hne, this, h2]

/-- The loop over the enemies ends when the fuel is at least 59: either every hero is
down and the log ends with "All heroes down", or all `n` enemies were defeated. -/
theorem fightEnemies_spec (fuel : Nat) (hfuel : 59 ≤ fuel) : ∀ (n e : Nat) (party : List Hero)
    (r : Rand) (logs : List String),
    ∃ (party1 : List Hero) (extra : List String),
      fightEnemies fuel n e party r logs = some (party1, logs ++ extra)
      ∧ party1.length = party.length
      ∧ (PartyOK party → PartyOK party1)
      ∧ (((∀ h ∈ party1, h.HP ≤ 0) ∧ extra.getLast? = some "All heroes down")
        ∨ ((n = 0 → party1 = party ∧ extra = [])
          ∧ (0 < n → (∃ h ∈ party1, 0 < h.HP) ∧ extra.getLast? = some "Enemy defeated")
          ∧ extra.count "Enemy defeated" = n)) := by
  intro n
  induction n with
  | zero =>
    intro e party r logs
    exact ⟨party, [], by simp [fightEnemies], rfl, id, Or.inr ⟨fun _ => ⟨rfl, rfl⟩, by simp, by simp⟩⟩
  | succ n ih =>
    intro e party r logs
    have hlt := Intn_lt r 30 (by decide)
    generalize hline : "Enemy " ++ toString (e + 1) ++ " appears with "
      ++ toString ((30 : Int) + ((r.Intn 30).1 : Int)) ++ " HP" = line
    have hne : line ≠ "Enemy defeated" := by
      rw [← hline]; exact append_HP_ne _
    obtain ⟨b, party1, r1, extra1, hf, hlen1, hok1, htrue, hfalse⟩ :=
      fightEnemy_spec fuel party (30 + ((r.Intn 30).1 : Int)) (r.Intn 30).2 (logs ++ [line])
        (by omega) (by omega)
    rw [fightEnemies]
    simp only [hline, hf]
    cases b with
    | true =>
      refine ⟨party1, [line] ++ extra1, by simp, hlen1, hok1, Or.inl ⟨(htrue rfl).1, ?_⟩⟩
      exact lastLine_append _ _ _ (htrue rfl).2
    | false =>
      obtain ⟨halive, hcount, hlast⟩ := hfalse rfl
      obtain ⟨party2, extra2, hf2, hlen2, hok2, hout⟩ :=
        ih (e + 1) party1 r1 (logs ++ [line] ++ extra1)
      refine ⟨party2, [line] ++ extra1 ++ extra2, ?_, by rw [hlen2, hlen1],
        fun hp => hok2 (hok1 hp), ?_⟩
      · simp only [hf2]; simp
      · rcases hout with ⟨hdown, hl⟩ | ⟨hzero, hpos, hc⟩
        · exact Or.inl ⟨hdown, lastLine_append _ _ _ hl⟩
        · right
          refine ⟨by omega, fun _ => ?_, ?_⟩
          · rcases Nat.eq_zero_or_pos n with hn | hn
            · obtain ⟨hp, hx⟩ := hzero hn
              subst hp hx
              refine ⟨halive, ?_⟩
              rw [List.append_nil]
              exact lastLine_append _ _ _ hlast
            · exact ⟨(hpos hn).1, lastLine_append _ _ _ (hpos hn).2⟩
          · simp [List.count_append, List.count_cons, hne, hcount, hc]
            omega

/-- The combat resolver returns for every fuel of at least 59, keeps the number of heroes,
touches no other field of the world and preserves the hp bound. -/
theorem resolveCombat_total (newSource : Int → Rand) (fuel : Nat) (hfuel : 59 ≤ fuel)
    (w : World) (seed : Int) :
    ∃ (party1 : List Hero) (logs : List String),
      resolveCombat newSource fuel w seed = some ({ w with Party := party1 }, logs)
      ∧ party1.length = w.Party.length
      ∧ (PartyOK w.Party → PartyOK party1) := by
  by_cases h0 : w.Party.length = 0
  · exact ⟨w.Party, ["No party present — combat skipped"], by simp [resolveCombat, h0], rfl, id⟩
  · obtain ⟨party1, extra, hf, hlen, hok, _⟩ :=
      fightEnemies_spec fuel hfuel (1 + ((newSource seed).Intn 2).1) 0 w.Party
        ((newSource seed).Intn 2).2 []
    refine ⟨party1, extra, ?_, hlen, hok⟩
    simp only [resolveCombat, h0, if_false, hf, List.nil_append]

/-- C10: on a non-empty party with 0 ≤ hp ≤ max_hp, for every seeding function, seed and
fuel of at least 59, `resolveCombat` returns, the number of enemies drawn is 1 or 2, and
exactly one of two outcomes holds: every hero's hp is 0 and the last log line is
"All heroes down"; or at least one hero has hp > 0, the log holds one "Enemy defeated"
line per enemy drawn and ends with that line. -/
theorem resolveCombat_outcome (newSource : Int → Rand) (fuel : Nat) (hfuel : 59 ≤ fuel)
    (w : World) (seed : Int) (hne : w.Party ≠ []) (hok : PartyOK w.Party) :
    ∃ (w1 : World) (logs : List String),
      resolveCombat newSource fuel w seed = some (w1, logs)
      ∧ (1 + ((newSource seed).Intn 2).1 = 1 ∨ 1 + ((newSource seed).Intn 2).1 = 2)
      ∧ Xor' ((∀ h ∈ w1.Party, h.HP = 0) ∧ logs.getLast? = some "All heroes down")
          ((∃ h ∈ w1.Party, 0 < h.HP)
            ∧ logs.count "Enemy defeated" = 1 + ((newSource seed).Intn 2).1
            ∧ logs.getLast? = some "Enemy defeated") := by
  have h0 : ¬ w.Party.length = 0 := by
    intro h; exact hne (List.length_eq_zero.1 h)
  have hlt := Intn_lt (newSource seed) 2 (by decide)
  obtain ⟨party1, extra, hf, hlen, hok1, hout⟩ :=
    fightEnemies_spec fuel hfuel (1 + ((newSource seed).Intn 2).1) 0 w.Party
      ((newSource seed).Intn 2).2 []
  refine ⟨{ w with Party := party1 }, extra, ?_, by omega, ?_⟩
  · simp only [resolveCombat, h0, if_false, hf, List.nil_append]
  · rcases hout with ⟨hdown, hl⟩ | ⟨_, hpos, hc⟩
    · left
      refine ⟨⟨fun h hm => ?_, hl⟩, ?_⟩
      · have := (hok1 hok h hm).1
        have := hdown h hm
        omega
      · rintro ⟨⟨h, hm, hp⟩, _⟩
        have := hdown h hm
        omega
    · right
      obtain ⟨halive, hl⟩ := hpos (by omega)
      refine ⟨⟨halive, hc, hl⟩, ?_⟩
      rintro ⟨hall, _⟩
      obtain ⟨h, hm, hp⟩ := halive
      have := hall h hm
      omega

theorem resolveCombat_outcome_witness :
    generateParty 0 ≠ [] ∧ PartyOK (generateParty 0)
      ∧ ∃ (w1 : World) (logs : List String),
        resolveCombat (fun _ => ⟨fun _ => 0, 0⟩) 59
          ⟨"7", "2D", "dungeon", "dark", [], 7, 0, "exploring", generateParty 0, []⟩ 7
          = some (w1, logs) :=
  ⟨by decide, by decide,
    let ⟨w1, logs, h, _⟩ :=
      resolveCombat_outcome (fun _ => ⟨fun _ => 0, 0⟩) 59 (by decide)
        ⟨"7", "2D", "dungeon", "dark", [], 7, 0, "exploring", generateParty 0, []⟩ 7
        (by decide) (by decide)
    ⟨w1, logs, h⟩⟩

/-- Both outcomes of the combat resolver occur: with raw draws all 0 the four heroes of
`generateParty` defeat the single enemy, and a lone hero with 3 HP is brought down. -/
theorem resolveCombat_examples :
    (resolveCombat (fun _ => ⟨fun _ => 0, 0⟩) 59
        ⟨"7", "2D", "dungeon", "dark", [], 7, 0, "exploring", generateParty 0, []⟩ 7).map
        (fun res => (res.1.Party.map (fun h => h.HP), res.2))
      = some ([114, 90, 80, 85],
          ["Enemy 1 appears with 30 HP", "Tank-1 hits enemy for 5 (enemy HP 25)",
            "Attacker-2 hits enemy for 9 (enemy HP 16)", "Healer-3 hits enemy for 5 (enemy HP 11)",
            "Support-4 hits enemy for 5 (enemy HP 6)", "Enemy hits Tank-1 for 6 (HP 114)",
            "Tank-1 hits enemy for 5 (enemy HP 1)", "Attacker-2 hits enemy for 9 (enemy HP 0)",
            "Enemy defeated"])
      ∧ (resolveCombat (fun _ => ⟨fun _ => 0, 0⟩) 59
        ⟨"7", "2D", "dungeon", "dark", [], 7, 0, "exploring", [⟨"Solo", "tank", 3, 120, []⟩],
          []⟩ 7).map (fun res => (res.1.Party.map (fun h => h.HP), res.2))
      = some ([0],
          ["Enemy 1 appears with 30 HP", "Solo hits enemy for 5 (enemy HP 25)",
            "Enemy hits Solo for 6 (HP 0)", "All heroes down"]) := by
  constructor <;> decide

/-! ## The exploration step -/

theorem triggerTrap_ok (newSource : Int → Rand) (w : World) (seed : Int) :
    ∃ party1, (triggerTrap newSource w seed).1 = { w with Party := party1 }
      ∧ party1.length = w.Party.length
      ∧ (PartyOK w.Party → PartyOK party1) := by
  by_cases h0 : (alive w.Party).length = 0
  · exact ⟨w.Party, by simp only [triggerTrap, h0, dite_true], rfl, id⟩
  · refine ⟨damageHero w.Party
        (pick (alive w.Party) (Nat.pos_of_ne_zero h0) ((newSource seed).Intn 16).2).1
        (5 + (((newSource seed).Intn 16).1 : Int)),
      by simp only [triggerTrap, h0, dite_false], damageHero_length _ _ _, ?_⟩
    intro hok
    exact damageHero_ok _ _ _ (by omega) hok

theorem restParty_ok (w : World) (hok : PartyOK w.Party) : PartyOK (restParty w).1.Party := by
  exact restLoop_ok w.Party 0 hok

theorem restLoop_length : ∀ (party : List Hero) (healed : Int),
    (restLoop party healed).1.length = party.length := by
  intro party
  induction party with
  | nil => intro healed; simp [restLoop]
  | cons h hs ih =>
    intro healed
    unfold restLoop
    by_cases h0 : h.HP ≤ 0 <;> by_cases ha : Int.tdiv (wrap64 (h.MaxHP - h.HP)) 2 ≤ 0 <;>
      simp [h0, ha, ih]

/-- The room switch returns for every fuel of at least 59; it changes only the party and
the log, keeps the number of heroes, preserves the hp bound and only appends to the
log. -/
theorem resolveRoom_spec (newSource : Int → Rand) (fuel : Nat) (hfuel : 59 ≤ fuel)
    (wld : World) (room : Room) :
    ∃ (party1 : List Hero) (extra : List String),
      resolveRoom newSource fuel wld room
        = some { wld with Party := party1, Log := wld.Log ++ extra }
      ∧ party1.length = wld.Party.length
      ∧ (PartyOK wld.Party → PartyOK party1) := by
  unfold resolveRoom
  by_cases hc : room.Type_ = "combat"
  · obtain ⟨party1, logs, hr, hlen, hok⟩ :=
      resolveCombat_total newSource fuel hfuel wld (wrap64 (wld.Seed + (wld.Current : Int)))
    exact ⟨party1, logs, by rw [if_pos hc, hr], hlen, hok⟩
  · by_cases hl : room.Type_ = "loot"
    · exact ⟨wld.Party, ["Found treasure: "
        ++ randomLoot newSource (wrap64 (wld.Seed + (wld.Current : Int)))],
        by rw [if_neg hc, if_pos hl], rfl, id⟩
    · by_cases ht : room.Type_ = "trap"
      · obtain ⟨party1, hr, hlen, hok⟩ :=
          triggerTrap_ok newSource wld (wrap64 (wld.Seed + (wld.Current : Int)))
        refine ⟨party1, [(triggerTrap newSource wld
          (wrap64 (wld.Seed + (wld.Current : Int)))).2], ?_, hlen, hok⟩
        rw [if_neg hc, if_neg hl, if_pos ht]
        simp only [hr]
      · by_cases hr : room.Type_ = "rest"
        · refine ⟨(restParty wld).1.Party,
            ["Rested: healed " ++ toString (restParty wld).2 ++ " HP total"], ?_, ?_,
            fun hok => restParty_ok wld hok⟩
          · rw [if_neg hc, if_neg hl, if_neg ht, if_pos hr]
            rfl
          · simp [restParty, restLoop_length]
        · refine ⟨wld.Party, [], ?_, rfl, id⟩
          rw [if_neg hc, if_neg hl, if_neg ht, if_neg hr, List.append_nil]

theorem countAlive_eq_zero : ∀ (party : List Hero),
    0 ≤ countAlive party ∧ (countAlive party = 0 ↔ ∀ h ∈ party, h.HP ≤ 0) := by
  intro party
  induction party with
  | nil => simp [countAlive]
  | cons h hs ih =>
    unfold countAlive
    by_cases hp : h.HP > 0
    · simp only [hp, if_true]
      refine ⟨by omega, ⟨fun hc => by omega, fun hall => ?_⟩⟩
      have := hall h (List.mem_cons_self _ _)
      omega
    · simp only [hp, if_false]
      refine ⟨ih.1, ?_⟩
      rw [ih.2]
      constructor
      · intro hall x hx
        rcases List.mem_cons.1 hx with rfl | hx
        · omega
        · exact hall x hx
      · intro hall x hx
        exact hall x (List.mem_cons_of_mem _ hx)

theorem finishRoom_spec (wld : World) :
    (finishRoom wld).Current = wld.Current + 1
      ∧ (finishRoom wld).Rooms = wld.Rooms
      ∧ (finishRoom wld).Party = wld.Party
      ∧ (finishRoom wld).Seed = wld.Seed
      ∧ ((∀ h ∈ wld.Party, h.HP ≤ 0) → (finishRoom wld).GameState = "game_over"
          ∧ (finishRoom wld).Log = wld.Log ++ ["All party members have fallen. Game over."])
      ∧ ((∃ h ∈ wld.Party, 0 < h.HP) → (finishRoom wld).GameState = wld.GameState
          ∧ (finishRoom wld).Log = wld.Log) := by
  unfold finishRoom
  by_cases hz : countAlive wld.Party = 0
  · simp only [hz, if_true, true_and]
    have hall := (countAlive_eq_zero wld.Party).2.1 hz
    refine ⟨fun _ => trivial, ?_⟩
    rintro ⟨h, hm, hp⟩
    have := hall h hm
    omega
  · simp only [hz, if_false, true_and]
    refine ⟨fun hall => absurd ((countAlive_eq_zero wld.Party).2.2 hall) hz, fun _ => trivial⟩

/-- The advance step on a world that is not in a terminal state and has a room left:
the room at `Current` is resolved and the tail of the handler is run on the result. -/
theorem exploreHandler_resolve (newSource : Int → Rand) (fuel : Nat) (hfuel : 59 ≤ fuel)
    (wld : World) (h1 : wld.GameState ≠ "game_over") (h2 : wld.GameState ≠ "finished")
    (hc : wld.Current < wld.Rooms.length) :
    ∃ (room : Room) (party1 : List Hero) (extra : List String),
      wld.Rooms[wld.Current]? = some room
      ∧ resolveRoom newSource fuel
          { wld with Log := wld.Log ++ ["Entering room " ++ toString room.Index ++ ": "
              ++ room.Desc ++ " (" ++ room.Type_ ++ ")"] } room
        = some { wld with Party := party1, Log := wld.Log ++ ["Entering room "
              ++ toString room.Index ++ ": " ++ room.Desc ++ " (" ++ room.Type_ ++ ")"] ++ extra }
      ∧ exploreHandler newSource fuel wld
        = some (finishRoom { wld with Party := party1, Log := wld.Log ++ ["Entering room "
              ++ toString room.Index ++ ": " ++ room.Desc ++ " (" ++ room.Type_ ++ ")"] ++ extra })
      ∧ party1.length = wld.Party.length
      ∧ (PartyOK wld.Party → PartyOK party1) := by
  have hns : ¬ (wld.GameState = "game_over" ∨ wld.GameState = "finished") := by
    rintro (h | h)
    · exact h1 h
    · exact h2 h
  have hge : ¬ wld.Current ≥ wld.Rooms.length := by omega
  obtain ⟨party1, extra, hr, hlen, hok⟩ := resolveRoom_spec newSource fuel hfuel
    { wld with Log := wld.Log ++ ["Entering room "
      ++ toString (wld.Rooms.get ⟨wld.Current, hc⟩).Index ++ ": "
      ++ (wld.Rooms.get ⟨wld.Current, hc⟩).Desc ++ " ("
      ++ (wld.Rooms.get ⟨wld.Current, hc⟩).Type_ ++ ")"] }
    (wld.Rooms.get ⟨wld.Current, hc⟩)
  refine ⟨wld.Rooms.get ⟨wld.Current, hc⟩, party1, extra, ?_, hr, ?_, hlen, hok⟩
  · simp [List.getElem?_eq_getElem hc]
  · simp only [exploreHandler, hns, if_false, hge, dite_false, hr]

theorem exploreHandler_ok (newSource : Int → Rand) (fuel : Nat) (hfuel : 59 ≤ fuel)
    (wld : World) (hok : PartyOK wld.Party) :
    ∃ wld1, exploreHandler newSource fuel wld = some wld1 ∧ PartyOK wld1.Party := by
  by_cases ht : wld.GameState = "game_over" ∨ wld.GameState = "finished"
  · exact ⟨wld, exploreHandler_guard newSource fuel wld ht, hok⟩
  · by_cases hge : wld.Current ≥ wld.Rooms.length
    · exact ⟨_, exploreHandler_end newSource fuel wld (fun h => ht (Or.inl h))
        (fun h => ht (Or.inr h)) hge, hok⟩
    · obtain ⟨room, party1, extra, _, _, he, _, hp⟩ :=
        exploreHandler_resolve newSource fuel hfuel wld (fun h => ht (Or.inl h))
          (fun h => ht (Or.inr h)) (by omega)
      refine ⟨_, he, ?_⟩
      rw [(finishRoom_spec _).2.2.1]
      exact hp hok

theorem exploreN_ok (newSource : Int → Rand) (fuel : Nat) (hfuel : 59 ≤ fuel) :
    ∀ (n : Nat) (wld : World), PartyOK wld.Party →
      ∃ wld1, exploreN newSource fuel n wld = some wld1 ∧ PartyOK wld1.Party := by
  intro n
  induction n with
  | zero => intro wld hok; exact ⟨wld, rfl, hok⟩
  | succ n ih =>
    intro wld hok
    obtain ⟨wld1, h1, hok1⟩ := exploreHandler_ok newSource fuel hfuel wld hok
    obtain ⟨wld2, h2, hok2⟩ := ih wld1 hok1
    exact ⟨wld2, by simp only [exploreN, h1, h2], hok2⟩

theorem generateParty_ok (now : Int) : PartyOK (generateParty now) := by
  intro h hmem
  simp only [generateParty, List.mem_cons, List.mem_singleton, List.not_mem_nil, or_false] at hmem
  rcases hmem with rfl | rfl | rfl | rfl <;> simp

theorem partyHandler_ok (now : Int) (wld : World) (hok : PartyOK wld.Party) :
    PartyOK (partyHandler now wld).Party := by
  unfold partyHandler
  split_ifs
  · exact generateParty_ok now
  · exact hok

/-- C1: if every hero of the party satisfies 0 ≤ hp ≤ max_hp then, for every seeding
function and seed, the bound still holds after `resolveCombat` (which returns for every
fuel of at least 59), after `triggerTrap` and after `restParty`; hence it holds after one
advance call, after any number of advance calls, and after any number of advance calls
on a world whose party was created by `generateParty` (directly or through the party
request). -/
theorem hp_bound (newSource : Int → Rand) (fuel : Nat) (hfuel : 59 ≤ fuel) (w : World)
    (seed : Int) (hok : PartyOK w.Party) :
    (∃ (w1 : World) (logs : List String),
        resolveCombat newSource fuel w seed = some (w1, logs) ∧ PartyOK w1.Party)
      ∧ PartyOK (triggerTrap newSource w seed).1.Party
      ∧ PartyOK (restParty w).1.Party
      ∧ (∃ w1, exploreHandler newSource fuel w = some w1 ∧ PartyOK w1.Party)
      ∧ (∀ n : Nat, ∃ w1, exploreN newSource fuel n w = some w1 ∧ PartyOK w1.Party)
      ∧ (∀ (now : Int) (v : World) (n : Nat),
          (∃ v1, exploreN newSource fuel n { v with Party := generateParty now } = some v1
            ∧ PartyOK v1.Party)
          ∧ (v.Party = [] →
            ∃ v1, exploreN newSource fuel n (partyHandler now v) = some v1
              ∧ PartyOK v1.Party)) := by
  refine ⟨?_, ?_, restParty_ok w hok, exploreHandler_ok newSource fuel hfuel w hok,
    fun n => exploreN_ok newSource fuel hfuel n w hok, ?_⟩
  · obtain ⟨party1, logs, hr, _, hp⟩ := resolveCombat_total newSource fuel hfuel w seed
    exact ⟨_, logs, hr, hp hok⟩
  · obtain ⟨party1, hr, _, hp⟩ := triggerTrap_ok newSource w seed
    rw [hr]
    exact hp hok
  · intro now v n
    refine ⟨exploreN_ok newSource fuel hfuel n _ (generateParty_ok now), fun hv => ?_⟩
    apply exploreN_ok newSource fuel hfuel n
    apply partyHandler_ok
    rw [hv]
    intro h hm
    exact absurd hm (List.not_mem_nil _)

theorem hp_bound_witness :
    PartyOK (generateParty 0)
      ∧ PartyOK (triggerTrap (fun _ => ⟨fun _ => 0, 0⟩)
          ⟨"7", "2D", "dungeon", "dark", [], 7, 0, "exploring", generateParty 0, []⟩ 7).1.Party
      ∧ PartyOK (restParty
          ⟨"7", "2D", "dungeon", "dark", [], 7, 0, "exploring", generateParty 0, []⟩).1.Party :=
  ⟨by decide,
    (hp_bound (fun _ => ⟨fun _ => 0, 0⟩) 59 (by decide)
      ⟨"7", "2D", "dungeon", "dark", [], 7, 0, "exploring", generateParty 0, []⟩ 7
      (by decide)).2.1,
    (hp_bound (fun _ => ⟨fun _ => 0, 0⟩) 59 (by decide)
      ⟨"7", "2D", "dungeon", "dark", [], 7, 0, "exploring", generateParty 0, []⟩ 7
      (by decide)).2.2.1⟩

/-- C4: on a world with game_state "exploring", current < number of rooms and every hero
within 0 ≤ hp ≤ max_hp, for every seeding function and every fuel of at least 59, the
advance call returns, and it ends with game_state "game_over" if and only if every
hero's hp is 0 after the call; otherwise game_state is still "exploring". -/
theorem exploreHandler_defeat (newSource : Int → Rand) (fuel : Nat) (hfuel : 59 ≤ fuel)
    (wld : World) (hs : wld.GameState = "exploring") (hc : wld.Current < wld.Rooms.length)
    (hok : PartyOK wld.Party) :
    ∃ wld1, exploreHandler newSource fuel wld = some wld1
      ∧ (wld1.GameState = "game_over" ↔ ∀ h ∈ wld1.Party, h.HP = 0)
      ∧ (¬ (∀ h ∈ wld1.Party, h.HP = 0) → wld1.GameState = "exploring") := by
  obtain ⟨room, party1, extra, _, _, he, _, hp⟩ :=
    exploreHandler_resolve newSource fuel hfuel wld (by rw [hs]; decide) (by rw [hs]; decide) hc
  obtain ⟨_, _, hparty, _, hdown, hup⟩ := finishRoom_spec
    { wld with Party := party1, Log := wld.Log ++ ["Entering room "
      ++ toString room.Index ++ ": " ++ room.Desc ++ " (" ++ room.Type_ ++ ")"] ++ extra }
  have hok1 := hp hok
  simp only at hparty hdown hup
  refine ⟨_, he, ?_, ?_⟩
  · rw [hparty]
    constructor
    · intro hg h hm
      by_contra hne
      have hpos : 0 < h.HP := by
        have := (hok1 h hm).1
        omega
      have := (hup ⟨h, hm, hpos⟩).1
      rw [this, hs] at hg
      exact absurd hg (by decide)
    · intro hall
      exact (hdown (fun h hm => by rw [hall h hm])).1
  · rw [hparty]
    intro hnot
    have hex : ∃ h ∈ party1, 0 < h.HP := by
      by_contra hc2
      apply hnot
      intro h hm
      have := (hok1 h hm).1
      by_contra hne
      exact hc2 ⟨h, hm, by omega⟩
    rw [(hup hex).1, hs]

theorem exploreHandler_defeat_witness :
    ∃ wld1, exploreHandler (fun _ => ⟨fun _ => 0, 0⟩) 59
        ⟨"7", "2D", "dungeon", "dark", [⟨1, "trap", "A swinging axe."⟩], 7, 0, "exploring",
          [⟨"Tank-1", "tank", 3, 120, []⟩], []⟩ = some wld1
      ∧ (wld1.GameState = "game_over" ↔ ∀ h ∈ wld1.Party, h.HP = 0) :=
  let ⟨wld1, h1, h2, _⟩ :=
    exploreHandler_defeat (fun _ => ⟨fun _ => 0, 0⟩) 59 (by decide)
      ⟨"7", "2D", "dungeon", "dark", [⟨1, "trap", "A swinging axe."⟩], 7, 0, "exploring",
        [⟨"Tank-1", "tank", 3, 120, []⟩], []⟩ rfl (by decide) (by decide)
  ⟨wld1, h1, h2⟩

/-- C5, counterexample: a world with exactly one room, current = 0, game_state
"exploring" and no party.  The first advance resolves the loot room, sets current to 1
and, no hero being alive, sets game_state to "game_over"; the second advance returns
that world unchanged, so game_state is "game_over" and not "finished". -/
theorem two_advances_counterexample :
    (⟨"7", "2D", "dungeon", "dark", [⟨1, "loot", "A chest."⟩], 7, 0, "exploring", [],
        ["Spawned"]⟩ : World).Rooms.length = 1
      ∧ ∃ wld1 wld2,
        exploreHandler (fun _ => ⟨fun _ => 0, 0⟩) 59
          ⟨"7", "2D", "dungeon", "dark", [⟨1, "loot", "A chest."⟩], 7, 0, "exploring", [],
            ["Spawned"]⟩ = some wld1
        ∧ wld1.Current = 1
        ∧ exploreHandler (fun _ => ⟨fun _ => 0, 0⟩) 59 wld1 = some wld2
        ∧ wld2.GameState = "game_over"
        ∧ wld2.GameState ≠ "finished" := by
  refine ⟨rfl, ⟨"7", "2D", "dungeon", "dark", [⟨1, "loot", "A chest."⟩], 7, 1, "game_over", [],
    ["Spawned", "Entering room 1: A chest. (loot)", "Found treasure: gold coins",
      "All party members have fallen. Game over."]⟩,
    ⟨"7", "2D", "dungeon", "dark", [⟨1, "loot", "A chest."⟩], 7, 1, "game_over", [],
    ["Spawned", "Entering room 1: A chest. (loot)", "Found treasure: gold coins",
      "All party members have fallen. Game over."]⟩, by decide, rfl, by decide, rfl,
    by decide⟩

/-- C5, amended: on a world with exactly one room, current = 0 and game_state
"exploring", for every seeding function and every fuel of at least 59, the first advance
resolves the room and sets current to 1.  If at least one hero has hp > 0 after it,
game_state is still "exploring" and the second advance sets game_state to "finished",
leaving current at 1 and the party as it is; otherwise the first advance sets game_state
to "game_over" and the second advance returns the world unchanged. -/
theorem two_advances (newSource : Int → Rand) (fuel : Nat) (hfuel : 59 ≤ fuel) (wld : World)
    (hr : wld.Rooms.length = 1) (hc : wld.Current = 0) (hs : wld.GameState = "exploring") :
    ∃ (room : Room) (wr wld1 : World),
      wld.Rooms = [room]
      ∧ resolveRoom newSource fuel
          { wld with Log := wld.Log ++ ["Entering room " ++ toString room.Index ++ ": "
              ++ room.Desc ++ " (" ++ room.Type_ ++ ")"] } room = some wr
      ∧ exploreHandler newSource fuel wld = some wld1
      ∧ wld1 = finishRoom wr
      ∧ wld1.Current = 1 ∧ wld1.Rooms = wld.Rooms
      ∧ ((∃ h ∈ wld1.Party, 0 < h.HP) →
          wld1.GameState = "exploring"
          ∧ ∃ wld2, exploreHandler newSource fuel wld1 = some wld2
            ∧ wld2.GameState = "finished" ∧ wld2.Current = 1 ∧ wld2.Party = wld1.Party)
      ∧ ((¬ ∃ h ∈ wld1.Party, 0 < h.HP) →
          wld1.GameState = "game_over"
          ∧ exploreHandler newSource fuel wld1 = some wld1) := by
  obtain ⟨room, party1, extra, hroom, hres, he, _, _⟩ :=
    exploreHandler_resolve newSource fuel hfuel wld (by rw [hs]; decide) (by rw [hs]; decide)
      (by omega)
  obtain ⟨hcur, hrooms, hparty, _, hdown, hup⟩ := finishRoom_spec
    { wld with Party := party1, Log := wld.Log ++ ["Entering room "
      ++ toString room.Index ++ ": " ++ room.Desc ++ " (" ++ room.Type_ ++ ")"] ++ extra }
  simp only at hcur hrooms hparty hdown hup
  have hrl : wld.Rooms = [room] := by
    rw [hc] at hroom
    match hw : wld.Rooms, hr, hroom with
    | [x], _, hx => simp at hx; rw [hx]
  refine ⟨room, _, _, hrl, hres, he, rfl, by rw [hcur, hc], hrooms, ?_, ?_⟩
  · rw [hparty]
    intro hex
    have hg := (hup hex).1
    refine ⟨by rw [hg, hs], ?_⟩
    have h2 := exploreHandler_end newSource fuel
      (finishRoom { wld with Party := party1, Log := wld.Log ++ ["Entering room "
        ++ toString room.Index ++ ": " ++ room.Desc ++ " (" ++ room.Type_ ++ ")"] ++ extra })
      (by rw [hg, hs]; decide) (by rw [hg, hs]; decide) (by rw [hcur, hrooms, hc, hr])
    exact ⟨_, h2, rfl, hcur.trans (by rw [hc]), hparty⟩
  · rw [hparty]
    intro hnone
    have hall : ∀ h ∈ party1, h.HP ≤ 0 := by
      intro h hm
      by_contra hc2
      exact hnone ⟨h, hm, by omega⟩
    have hg := (hdown hall).1
    exact ⟨hg, exploreHandler_guard newSource fuel _ (Or.inl hg)⟩

theorem two_advances_witness :
    ∃ (room : Room) (wr wld1 : World),
      exploreHandler (fun _ => ⟨fun _ => 0, 0⟩) 59
        ⟨"7", "2D", "dungeon", "dark", [⟨1, "rest", "A stone bench."⟩], 7, 0, "exploring",
          generateParty 0, ["Spawned"]⟩ = some wld1
      ∧ wld1 = finishRoom wr ∧ wld1.Current = 1 ∧ room = ⟨1, "rest", "A stone bench."⟩ :=
  let ⟨room, wr, wld1, hroom, _, he, hf, hcur, _⟩ :=
    two_advances (fun _ => ⟨fun _ => 0, 0⟩) 59 (by decide)
      ⟨"7", "2D", "dungeon", "dark", [⟨1, "rest", "A stone bench."⟩], 7, 0, "exploring",
        generateParty 0, ["Spawned"]⟩ rfl rfl rfl
  ⟨room, wr, wld1, he, hf, hcur, (List.cons.inj hroom).1.symm⟩

/-- C6: on a world whose game_state is one of "exploring", "finished", "game_over", for
every seeding function and every fuel of at least 59, the advance call returns and
current after it is never smaller than before: it is current + 1 when the call resolves
a room (game_state "exploring" and current < number of rooms) and unchanged in every
other case. -/
theorem exploreHandler_current (newSource : Int → Rand) (fuel : Nat) (hfuel : 59 ≤ fuel)
    (wld : World)
    (hv : wld.GameState = "exploring" ∨ wld.GameState = "finished"
      ∨ wld.GameState = "game_over") :
    ∃ wld1, exploreHandler newSource fuel wld = some wld1
      ∧ wld.Current ≤ wld1.Current
      ∧ wld1.Current
        = if wld.GameState = "exploring" ∧ wld.Current < wld.Rooms.length
          then wld.Current + 1 else wld.Current := by
  rcases hv with hs | ht
  · by_cases hc : wld.Current < wld.Rooms.length
    · obtain ⟨room, party1, extra, _, _, he, _, _⟩ :=
        exploreHandler_resolve newSource fuel hfuel wld (by rw [hs]; decide)
          (by rw [hs]; decide) hc
      refine ⟨_, he, ?_, ?_⟩
      · rw [(finishRoom_spec _).1]; simp
      · rw [(finishRoom_spec _).1, if_pos ⟨hs, hc⟩]
    · refine ⟨_, exploreHandler_end newSource fuel wld (by rw [hs]; decide)
        (by rw [hs]; decide) (by omega), le_refl _, ?_⟩
      rw [if_neg (fun h => hc h.2)]
  · refine ⟨wld, exploreHandler_guard newSource fuel wld ht.symm, le_refl _, ?_⟩
    rw [if_neg]
    rintro ⟨hs, _⟩
    rcases ht with ht | ht <;> rw [hs] at ht <;> exact absurd ht (by decide)

theorem exploreHandler_current_witness :
    ∃ wld1, exploreHandler (fun _ => ⟨fun _ => 0, 0⟩) 59
        ⟨"7", "2D", "dungeon", "dark", [⟨1, "trap", "A swinging axe."⟩], 7, 0, "exploring",
          generateParty 0, []⟩ = some wld1
      ∧ wld1.Current = 1 :=
  let ⟨wld1, h1, _, h2⟩ :=
    exploreHandler_current (fun _ => ⟨fun _ => 0, 0⟩) 59 (by decide)
      ⟨"7", "2D", "dungeon", "dark", [⟨1, "trap", "A swinging axe."⟩], 7, 0, "exploring",
        generateParty 0, []⟩ (Or.inl rfl)
  ⟨wld1, h1, h2.trans (if_pos ⟨rfl, by decide⟩)⟩

/-! ## Combat without a party -/

/-- C11: for every seeding function, seed and fuel, `resolveCombat` on a world whose party
is empty returns exactly the one-element list ["No party present — combat skipped"] and
the world unchanged. -/
theorem resolveCombat_no_party (newSource : Int → Rand) (fuel : Nat) (w : World) (seed : Int)
    (hp : w.Party = []) :
    resolveCombat newSource fuel w seed = some (w, ["No party present — combat skipped"]) := by
  have h0 : w.Party.length = 0 := by rw [hp]; rfl
  simp only [resolveCombat, h0, if_true]

theorem resolveCombat_no_party_witness :
    resolveCombat (fun _ => ⟨fun _ => 0, 0⟩) 0
        ⟨"7", "2D", "dungeon", "dark", [⟨1, "combat", "A goblin."⟩], 7, 0, "exploring", [],
          ["Spawned"]⟩ 7
      = some (⟨"7", "2D", "dungeon", "dark", [⟨1, "combat", "A goblin."⟩], 7, 0, "exploring", [],
          ["Spawned"]⟩, ["No party present — combat skipped"]) :=
  resolveCombat_no_party _ _ _ _ rfl

/-! ## The log is append-only -/

/-- The combat resolver produces at least one log line. -/
theorem resolveCombat_lines (newSource : Int → Rand) (fuel : Nat) (hfuel : 59 ≤ fuel)
    (w : World) (seed : Int) :
    ∃ (party1 : List Hero) (logs : List String),
      resolveCombat newSource fuel w seed = some ({ w with Party := party1 }, logs)
      ∧ logs ≠ [] := by
  by_cases h0 : w.Party.length = 0
  · exact ⟨w.Party, ["No party present — combat skipped"], by simp [resolveCombat, h0],
      by simp⟩
  · obtain ⟨party1, extra, hf, _, _, hout⟩ :=
      fightEnemies_spec fuel hfuel (1 + ((newSource seed).Intn 2).1) 0 w.Party
        ((newSource seed).Intn 2).2 []
    refine ⟨party1, extra, ?_, ?_⟩
    · simp only [resolveCombat, h0, if_false, hf, List.nil_append]
    · intro he
      rcases hout with ⟨_, hl⟩ | ⟨_, hpos, _⟩
      · rw [he] at hl; simp at hl
      · have hl := (hpos (by omega)).2
        rw [he] at hl; simp at hl

/-- On a room of one of the four kinds the room switch appends at least one line. -/
theorem resolveRoom_lines (newSource : Int → Rand) (fuel : Nat) (hfuel : 59 ≤ fuel)
    (wld : World) (room : Room)
    (hk : room.Type_ = "combat" ∨ room.Type_ = "loot" ∨ room.Type_ = "trap"
      ∨ room.Type_ = "rest") :
    ∃ (party1 : List Hero) (extra : List String),
      resolveRoom newSource fuel wld room
        = some { wld with Party := party1, Log := wld.Log ++ extra }
      ∧ extra ≠ [] := by
  unfold resolveRoom
  by_cases hc : room.Type_ = "combat"
  · obtain ⟨party1, logs, hr, hne⟩ :=
      resolveCombat_lines newSource fuel hfuel wld (wrap64 (wld.Seed + (wld.Current : Int)))
    exact ⟨party1, logs, by rw [if_pos hc, hr], hne⟩
  · by_cases hl : room.Type_ = "loot"
    · exact ⟨wld.Party, ["Found treasure: "
        ++ randomLoot newSource (wrap64 (wld.Seed + (wld.Current : Int)))],
        by rw [if_neg hc, if_pos hl], by simp⟩
    · by_cases ht : room.Type_ = "trap"
      · obtain ⟨party1, hr, _, _⟩ :=
          triggerTrap_ok newSource wld (wrap64 (wld.Seed + (wld.Current : Int)))
        refine ⟨party1, [(triggerTrap newSource wld
          (wrap64 (wld.Seed + (wld.Current : Int)))).2], ?_, by simp⟩
        rw [if_neg hc, if_neg hl, if_pos ht]
        simp only [hr]
      · have hr : room.Type_ = "rest" := by
          rcases hk with h | h | h | h
          · exact absurd h hc
          · exact absurd h hl
          · exact absurd h ht
          · exact h
        refine ⟨(restParty wld).1.Party,
          ["Rested: healed " ++ toString (restParty wld).2 ++ " HP total"], ?_, by simp⟩
        rw [if_neg hc, if_neg hl, if_neg ht, if_pos hr]
        rfl

/-- The tail of the handler appends nothing or the single defeat line. -/
theorem finishRoom_log (wld : World) :
    (finishRoom wld).Log = wld.Log
      ∨ (finishRoom wld).Log = wld.Log ++ ["All party members have fallen. Game over."] := by
  unfold finishRoom
  by_cases hz : countAlive wld.Party = 0
  · right; simp only [hz, if_true]
  · left; simp only [hz, if_false]

/-- C12: for every world, seeding function and fuel of at least 59 the advance call
returns, and the log after it is the log before it followed by appended lines (the old
log is a prefix: no line removed, changed or reordered).  When game_state was "exploring"
at least one line is appended.  When a room is resolved and its type is one of the four
kinds, the appended lines are the "Entering room" line, then at least one line produced
by the room's resolver, then nothing or the defeat line. -/
theorem exploreHandler_log (newSource : Int → Rand) (fuel : Nat) (hfuel : 59 ≤ fuel)
    (wld : World) :
    ∃ (wld1 : World) (extra : List String),
      exploreHandler newSource fuel wld = some wld1
      ∧ wld1.Log = wld.Log ++ extra
      ∧ wld.Log <+: wld1.Log
      ∧ (wld.GameState = "exploring" → extra ≠ [])
      ∧ (wld.GameState = "exploring" → ∀ room : Room, wld.Rooms[wld.Current]? = some room →
          (room.Type_ = "combat" ∨ room.Type_ = "loot" ∨ room.Type_ = "trap"
            ∨ room.Type_ = "rest") →
          ∃ (wr : World) (lines tail : List String),
            resolveRoom newSource fuel
                { wld with Log := wld.Log ++ ["Entering room " ++ toString room.Index ++ ": "
                    ++ room.Desc ++ " (" ++ room.Type_ ++ ")"] } room = some wr
            ∧ wr.Log = wld.Log ++ ["Entering room " ++ toString room.Index ++ ": "
                    ++ room.Desc ++ " (" ++ room.Type_ ++ ")"] ++ lines
            ∧ lines ≠ []
            ∧ (tail = [] ∨ tail = ["All party members have fallen. Game over."])
            ∧ extra = ["Entering room " ++ toString room.Index ++ ": "
                    ++ room.Desc ++ " (" ++ room.Type_ ++ ")"] ++ lines ++ tail) := by
  by_cases ht : wld.GameState = "game_over" ∨ wld.GameState = "finished"
  · refine ⟨wld, [], exploreHandler_guard newSource fuel wld ht, by simp, ⟨[], by simp⟩, ?_, ?_⟩
    · intro hs
      rcases ht with ht | ht <;> rw [hs] at ht <;> exact absurd ht (by decide)
    · intro hs
      rcases ht with ht | ht <;> rw [hs] at ht <;> exact absurd ht (by decide)
  · by_cases hge : wld.Current ≥ wld.Rooms.length
    · refine ⟨_, ["You have reached the dungeon's end. Victory! 🎉"],
        exploreHandler_end newSource fuel wld (fun h => ht (Or.inl h)) (fun h => ht (Or.inr h))
          hge, rfl, ⟨["You have reached the dungeon's end. Victory! 🎉"], rfl⟩, fun _ => by simp,
        ?_⟩
      intro _ room hroom
      rw [List.getElem?_eq_none (by omega)] at hroom
      exact absurd hroom (by simp)
    · obtain ⟨room0, party1, extra0, hroom0, hres, he, _, _⟩ :=
        exploreHandler_resolve newSource fuel hfuel wld (fun h => ht (Or.inl h))
          (fun h => ht (Or.inr h)) (by omega)
      rcases finishRoom_log { wld with Party := party1, Log := wld.Log ++ ["Entering room "
          ++ toString room0.Index ++ ": " ++ room0.Desc ++ " (" ++ room0.Type_ ++ ")"]
          ++ extra0 } with hlog | hlog
      · refine ⟨_, ["Entering room " ++ toString room0.Index ++ ": " ++ room0.Desc ++ " ("
          ++ room0.Type_ ++ ")"] ++ extra0, he, ?_, ⟨["Entering room "
          ++ toString room0.Index ++ ": " ++ room0.Desc ++ " (" ++ room0.Type_ ++ ")"]
          ++ extra0, ?_⟩, fun _ => by simp, ?_⟩
        · rw [hlog]; simp
        · rw [hlog]; simp
        · intro _ room hroom hk
          have hrr : room0 = room := Option.some.inj (hroom0.symm.trans hroom)
          subst hrr
          obtain ⟨party2, extra2, hres2, hne2⟩ := resolveRoom_lines newSource fuel hfuel
            { wld with Log := wld.Log ++ ["Entering room " ++ toString room0.Index ++ ": "
              ++ room0.Desc ++ " (" ++ room0.Type_ ++ ")"] } room0 hk
          have heq := congrArg World.Log (Option.some.inj (hres.symm.trans hres2))
          simp only at heq
          have hx : extra0 = extra2 := List.append_cancel_left heq
          subst hx
          exact ⟨_, extra0, [], hres, rfl, hne2, Or.inl rfl, by simp⟩
      · refine ⟨_, ["Entering room " ++ toString room0.Index ++ ": " ++ room0.Desc ++ " ("
          ++ room0.Type_ ++ ")"] ++ extra0 ++ ["All party members have fallen. Game over."],
          he, ?_, ⟨["Entering room " ++ toString room0.Index ++ ": " ++ room0.Desc ++ " ("
          ++ room0.Type_ ++ ")"] ++ extra0 ++ ["All party members have fallen. Game over."],
          ?_⟩, fun _ => by simp, ?_⟩
        · rw [hlog]; simp
        · rw [hlog]; simp
        · intro _ room hroom hk
          have hrr : room0 = room := Option.some.inj (hroom0.symm.trans hroom)
          subst hrr
          obtain ⟨party2, extra2, hres2, hne2⟩ := resolveRoom_lines newSource fuel hfuel
            { wld with Log := wld.Log ++ ["Entering room " ++ toString room0.Index ++ ": "
              ++ room0.Desc ++ " (" ++ room0.Type_ ++ ")"] } room0 hk
          have heq := congrArg World.Log (Option.some.inj (hres.symm.trans hres2))
          simp only at heq
          have hx : extra0 = extra2 := List.append_cancel_left heq
          subst hx
          exact ⟨_, extra0, ["All party members have fallen. Game over."], hres, rfl, hne2,
            Or.inr rfl, rfl⟩

theorem exploreHandler_log_witness :
    ∃ (wld1 : World) (extra : List String),
      exploreHandler (fun _ => ⟨fun _ => 0, 0⟩) 59
        ⟨"7", "2D", "dungeon", "dark", [⟨1, "trap", "A swinging axe."⟩], 7, 0, "exploring",
          generateParty 0, ["Spawned"]⟩ = some wld1
      ∧ wld1.Log = ["Spawned"] ++ extra ∧ extra ≠ [] :=
  let ⟨wld1, extra, h1, h2, _, h3, _⟩ :=
    exploreHandler_log (fun _ => ⟨fun _ => 0, 0⟩) 59 (by decide)
      ⟨"7", "2D", "dungeon", "dark", [⟨1, "trap", "A swinging axe."⟩], 7, 0, "exploring",
        generateParty 0, ["Spawned"]⟩
  ⟨wld1, extra, h1, h2, h3 rfl⟩

/-- A room whose type is none of the four kinds is entered and passed without any
resolver line: the switch of the handler has no default case. -/
theorem exploreHandler_unknown_room :
    (exploreHandler (fun _ => ⟨fun _ => 0, 0⟩) 59
        ⟨"7", "2D", "dungeon", "dark", [⟨1, "boss", "A dragon."⟩], 7, 0, "exploring",
          generateParty 0, ["Spawned"]⟩).map (fun w => w.Log)
      = some ["Spawned", "Entering room 1: A dragon. (boss)"] := by
  decide

end Voidspark
